import Mathlib

/-!
Verification development for the amaranth regex engine
(single header `include/amaranth/amaranth.h`).

The pattern and the input text are byte strings, modelled as `List Nat`
(each element an 8-bit byte value).  Machine `uint64_t` bit masks are
modelled as `Nat` built exclusively from `1 <<< b` with `b < 64`, so no
overflow arises.  `size_t` capture slots use `Option Nat`, with `none`
standing for the sentinel `std::string::npos`.  Code that can loop
forever (the backtracking VM and the driver loops above it) is modelled
with an explicit fuel parameter: a result of `none` means the fuel ran
out, `some` is the definite answer of the C++ code.
-/

namespace Amaranth

/-- Token tags, mirroring `enum class TokenType`. -/
inductive TokenType where
  | UNKNOWN | LITERAL | DOT | LPAREN | RPAREN | LBRACE | RBRACE
  | LBRACKET | RBRACKET | PIPE | STAR | PLUS | QUESTION | CARET
  | DOLLAR | ESCAPE | BACKREF | RANGE | COMMA
  deriving DecidableEq, Repr

/-- A lexer token: tag, byte value and byte offset in the pattern
(mirrors `struct Token`). -/
structure Token where
  type : TokenType
  value : Nat
  position : Nat
  deriving DecidableEq, Repr

/-- The token tag `Lexer::nextToken` assigns to a single
non-backslash, non-whitespace byte. -/
def charTokenType (c : Nat) : TokenType :=
  if c = 46 then .DOT            -- '.'
  else if c = 40 then .LPAREN    -- '('
  else if c = 41 then .RPAREN    -- ')'
  else if c = 123 then .LBRACE   -- braces
  else if c = 125 then .RBRACE
  else if c = 91 then .LBRACKET  -- '['
  else if c = 93 then .RBRACKET  -- ']'
  else if c = 124 then .PIPE     -- '|'
  else if c = 42 then .STAR      -- '*'
  else if c = 43 then .PLUS      -- '+'
  else if c = 63 then .QUESTION  -- '?'
  else if c = 94 then .CARET     -- '^'
  else if c = 36 then .DOLLAR    -- '$'
  else if c = 45 then .RANGE     -- '-'
  else if c = 44 then .COMMA     -- ','
  else .LITERAL

/-- Compile-time failure: message and byte offset in the pattern
(mirrors `RegexError`). -/
abbrev RErr := String × Nat

/-- `Lexer::tokenize`: repeatedly take `nextToken` until the pattern is
exhausted.  A backslash (byte 92) consumes the following byte and emits
an `ESCAPE` token carrying it; a dangling backslash raises
"Incomplete escape sequence" at the backslash's offset.  Space (32) and
tab (9) are skipped; when the skip runs off the end, `nextToken` returns
the `UNKNOWN` token that the C++ loop then stores. -/
def lexAll : List Nat → Nat → Except RErr (List Token)
  | [], _ => .ok []
  | c :: rest, pos =>
    if c = 92 then
      match rest with
      | [] => .error ("Incomplete escape sequence", pos)
      | e :: r =>
        match lexAll r (pos + 2) with
        | .error err => .error err
        | .ok ts => .ok (⟨.ESCAPE, e, pos⟩ :: ts)
    else if c = 32 ∨ c = 9 then
      match rest with
      | [] => .ok [⟨.UNKNOWN, 0, pos + 1⟩]
      | _ :: _ => lexAll rest (pos + 1)
    else
      match lexAll rest (pos + 1) with
      | .error err => .error err
      | .ok ts => .ok (⟨charTokenType c, c, pos⟩ :: ts)

/-- A pattern ends in a dangling backslash: its last byte is a
backslash that is not itself the consumed argument of a preceding
escaping backslash (the lexer pairs backslashes from the left, so this
scan mirrors that pairing). -/
def danglingBackslash : List Nat → Bool
  | [] => false
  | [c] => c = 92
  | c :: d :: r => if c = 92 then danglingBackslash r else danglingBackslash (d :: r)

/-- AST nodes (`struct ASTNode`).  `cls`/`ncls` carry the two 64-bit
class masks and the optional named-class kind (`class_type`, `-1` in the
source is `none` here). -/
inductive AST where
  | lit (ch : Nat)
  | dot
  | concat (l r : AST)
  | alternate (l r : AST)
  | rpt (child : AST) (minRepeat maxRepeat : Nat) (greedy : Bool)
  | cls (lo hi : Nat) (classType : Option Nat)
  | ncls (lo hi : Nat) (classType : Option Nat)
  | anchorStart
  | anchorEnd
  | group (child : AST) (idx : Nat)
  | backref (idx : Nat)
  deriving DecidableEq, Repr

/-- `UINT32_MAX`, the parser's encoding of an unbounded repetition. -/
def U32MAX : Nat := 4294967295

/-- Class type constants (`enum ClassType`). -/
def CLASS_DIGIT : Nat := 0
def CLASS_WORD : Nat := 1
def CLASS_SPACE : Nat := 2

/-- `CharClass::DIGIT_MASK`: bits 48-57 (bytes of the digits). -/
def DIGIT_MASK : Nat :=
  (1 <<< 48) ||| (1 <<< 49) ||| (1 <<< 50) ||| (1 <<< 51) ||| (1 <<< 52) |||
  (1 <<< 53) ||| (1 <<< 54) ||| (1 <<< 55) ||| (1 <<< 56) ||| (1 <<< 57)

/-- `CharClass::SPACE_MASK`: space, tab, form feed, carriage return,
newline, vertical tab. -/
def SPACE_MASK : Nat :=
  (1 <<< 32) ||| (1 <<< 9) ||| (1 <<< 12) ||| (1 <<< 13) ||| (1 <<< 10) ||| (1 <<< 11)

/-- `CharClass::isDigit` on a byte. -/
def isDigitByte (c : Nat) : Bool := 48 ≤ c ∧ c ≤ 57

/-- `CharClass::isWordChar`: letter, digit or underscore. -/
def isWordByte (c : Nat) : Bool :=
  (65 ≤ c ∧ c ≤ 90) ∨ (97 ≤ c ∧ c ≤ 122) ∨ isDigitByte c ∨ c = 95

/-- `CharClass::isSpace` on a byte. -/
def isSpaceByte (c : Nat) : Bool :=
  c = 32 ∨ c = 9 ∨ c = 10 ∨ c = 13 ∨ c = 12 ∨ c = 11

/-- `Parser::parseHexDigit`. -/
def parseHexDigit (c : Nat) : Nat :=
  if 48 ≤ c ∧ c ≤ 57 then c - 48
  else if 97 ≤ c ∧ c ≤ 102 then c - 97 + 10
  else if 65 ≤ c ∧ c ≤ 70 then c - 65 + 10
  else 0

/-- `Parser::parseNumber`: consume leading `LITERAL` digit tokens,
accumulating a decimal value. -/
def parseNumberAux (acc : Nat) : List Token → Nat × List Token
  | [] => (acc, [])
  | t :: rest =>
    if t.type = .LITERAL ∧ isDigitByte t.value then
      parseNumberAux (acc * 10 + (t.value - 48)) rest
    else (acc, t :: rest)

def parseNumber (toks : List Token) : Nat × List Token := parseNumberAux 0 toks

/-- `Parser::parseEscape`: interpret an escape token outside a bracket
expression.  `\b` and `\B` fall through to `Literal('b')`. -/
def parseEscape (esc : Nat) : AST :=
  if esc = 100 then .cls 0 0 (some CLASS_DIGIT)        -- d
  else if esc = 68 then .ncls 0 0 (some CLASS_DIGIT)   -- D
  else if esc = 119 then .cls 0 0 (some CLASS_WORD)    -- w
  else if esc = 87 then .ncls 0 0 (some CLASS_WORD)    -- W
  else if esc = 115 then .cls 0 0 (some CLASS_SPACE)   -- s
  else if esc = 83 then .ncls 0 0 (some CLASS_SPACE)   -- S
  else if esc = 98 ∨ esc = 66 then .lit 98             -- b, B: literal 'b'
  else if esc = 116 then .lit 9                        -- t
  else if esc = 114 then .lit 13                       -- r
  else if esc = 110 then .lit 10                       -- n
  else if esc = 102 then .lit 12                       -- f
  else if esc = 118 then .lit 11                       -- v
  else .lit esc

/-- Add one byte to the pair of class masks (low bits 0-63, high bits
64-127); bytes at 128 and above are dropped, as in the source. -/
def addClassByte (m : Nat × Nat) (u : Nat) : Nat × Nat :=
  if u < 64 then (m.1 ||| (1 <<< u), m.2)
  else if u < 128 then (m.1, m.2 ||| (1 <<< (u - 64)))
  else m

/-- The inclusive range loop `for (int i = c; i <= end_char; ++i)` of
`Parser::parseCharacterClass`. -/
def addClassRange (m : Nat × Nat) (c ec : Nat) : Nat × Nat :=
  (List.range' c (ec + 1 - c)).foldl addClassByte m

/-- Parser-fuel exhaustion marker (never produced for the fuel budget
`compilePattern` supplies). -/
def fuelErr : RErr := ("parser fuel exhausted", 0)

/-- The item loop of `Parser::parseCharacterClass`: consume class items
until a `]` or the end of the tokens, accumulating the two masks.  The
`negated` flag is threaded because the source branches on it (both
branches perform the same mask update).  `consume()` past the end of
the tokens yields the `UNKNOWN` token with value 0. -/
def classItems (negated : Bool) : Nat → List Token → Nat × Nat →
    Option ((Nat × Nat) × List Token)
  | 0, _, _ => none
  | fuel + 1, toks, m =>
    match toks with
    | [] => some (m, [])
    | t :: rest =>
      if t.type = .RBRACKET ∨ t.type = .UNKNOWN then some (m, t :: rest)
      else if t.type = .ESCAPE then
        let esc := t.value
        let step : (Nat × Nat) × List Token :=
          if esc = 100 then ((DIGIT_MASK, 0), rest)        -- d
          else if esc = 68 then ((DIGIT_MASK, 0), rest)    -- D: same positive set
          else if esc = 119 then ((0, 0), rest)            -- w: no bits ("will use function")
          else if esc = 87 then ((0, 0), rest)             -- W
          else if esc = 115 then ((SPACE_MASK, 0), rest)   -- s
          else if esc = 83 then ((SPACE_MASK, 0), rest)    -- S
          else if esc = 116 then ((1 <<< 9, 0), rest)      -- t
          else if esc = 114 then ((1 <<< 13, 0), rest)     -- r
          else if esc = 110 then ((1 <<< 10, 0), rest)     -- n
          else if esc = 102 then ((1 <<< 12, 0), rest)     -- f
          else if esc = 118 then ((1 <<< 11, 0), rest)     -- v
          else if esc = 97 then ((1 <<< 7, 0), rest)       -- a
          else if esc = 101 then ((1 <<< 27, 0), rest)     -- e (0x1b)
          else if esc = 120 then                           -- x: up to two hex digits
            let hex : Nat × List Token :=
              match rest with
              | h1 :: r1 =>
                if h1.type = .LITERAL then
                  match r1 with
                  | h2 :: r2 =>
                    if h2.type = .LITERAL then
                      (parseHexDigit h1.value * 16 + parseHexDigit h2.value, r2)
                    else (parseHexDigit h1.value, h2 :: r2)
                  | [] => (parseHexDigit h1.value, [])
                else (0, h1 :: r1)
              | [] => (0, [])
            (addClassByte (0, 0) hex.1, hex.2)
          else (addClassByte (0, 0) esc, rest)             -- any other escape: its byte
        let m' := if negated then (m.1 ||| step.1.1, m.2 ||| step.1.2)
                  else (m.1 ||| step.1.1, m.2 ||| step.1.2)
        classItems negated fuel step.2 m'
      else
        let c := t.value
        match rest with
        | r1 :: rest2 =>
          if r1.type = .RANGE then
            match rest2 with
            | r2 :: rest3 => classItems negated fuel rest3 (addClassRange m c r2.value)
            | [] => classItems negated fuel [] (addClassRange m c 0)
          else classItems negated fuel (r1 :: rest2) (addClassByte m c)
        | [] => classItems negated fuel [] (addClassByte m c)

/-- `Parser::parseCharacterClass`: optional leading `^`, then the item
loop; produces a `CLASS` or `NOT_CLASS` node carrying the masks. -/
def parseCharClassNode (fuel : Nat) (toks : List Token) : Option (AST × List Token) :=
  let start : Bool × List Token :=
    match toks with
    | t :: rest => if t.type = .CARET then (true, rest) else (false, t :: rest)
    | [] => (false, [])
  match classItems start.1 fuel start.2 (0, 0) with
  | none => none
  | some (m, rest) =>
    some ((if start.1 then .ncls m.1 m.2 none else .cls m.1 m.2 none), rest)

/-- `Parser::isQuantifierStart`. -/
def isQuantStart (toks : List Token) : Bool :=
  match toks with
  | [] => false
  | t :: _ =>
    t.type = .LITERAL ∨ t.type = .RANGE ∨ t.type = .DOT ∨ t.type = .LPAREN ∨
    t.type = .LBRACKET ∨ t.type = .ESCAPE ∨ t.type = .CARET ∨ t.type = .DOLLAR

/-- `match(RPAREN)` followed by success, or the given error (used for
the three `)`-closing checks of `parseAtom`). -/
def expectRParen (msg : String) (pos : Nat) (node : AST) (toks : List Token)
    (cap : Nat) : Except RErr (AST × List Token × Nat) :=
  match toks with
  | r :: rr => if r.type = .RPAREN then .ok (node, rr, cap) else .error (msg, pos)
  | [] => .error (msg, pos)

/-- The six mutually recursive procedures of the recursive-descent
`Parser` (`parseAlternation`, its `|`-loop, `parseConcatenation`, its
concatenation loop, `parseQuantifier`, `parseAtom`), folded into one
function over a task tag so that the recursion is structural on the
fuel and concrete runs reduce definitionally.  State is (remaining
tokens, capture counter). -/
inductive PTask where
  | alt (toks : List Token) (cap : Nat)
  | altLoop (left : AST) (toks : List Token) (cap : Nat)
  | cat (toks : List Token) (cap : Nat)
  | catLoop (left : AST) (toks : List Token) (cap : Nat)
  | quant (toks : List Token) (cap : Nat)
  | atom (toks : List Token) (cap : Nat)
  deriving Repr

def parseGo : Nat → PTask → Except RErr (AST × List Token × Nat)
  | 0, _ => .error fuelErr
  -- Parser::parseAlternation
  | fuel + 1, .alt toks cap =>
    match parseGo fuel (.cat toks cap) with
    | .error e => .error e
    | .ok (l, toks1, cap1) => parseGo fuel (.altLoop l toks1 cap1)
  -- its while (match(PIPE)) loop
  | fuel + 1, .altLoop left toks cap =>
    match toks with
    | t :: rest =>
      if t.type = .PIPE then
        match parseGo fuel (.cat rest cap) with
        | .error e => .error e
        | .ok (r, toks1, cap1) => parseGo fuel (.altLoop (.alternate left r) toks1 cap1)
      else .ok (left, t :: rest, cap)
    | [] => .ok (left, [], cap)
  -- Parser::parseConcatenation
  | fuel + 1, .cat toks cap =>
    match parseGo fuel (.quant toks cap) with
    | .error e => .error e
    | .ok (l, toks1, cap1) => parseGo fuel (.catLoop l toks1 cap1)
  -- its while (isQuantifierStart()) loop
  | fuel + 1, .catLoop left toks cap =>
    if isQuantStart toks then
      match parseGo fuel (.quant toks cap) with
      | .error e => .error e
      | .ok (r, toks1, cap1) => parseGo fuel (.catLoop (.concat left r) toks1 cap1)
    else .ok (left, toks, cap)
  -- Parser::parseQuantifier: an atom followed by an optional
  -- * + ? {n} {n,m} quantifier (always greedy)
  | fuel + 1, .quant toks cap =>
    match parseGo fuel (.atom toks cap) with
    | .error e => .error e
    | .ok (atom, toks1, cap1) =>
      match toks1 with
      | [] => .ok (atom, [], cap1)
      | t :: rest =>
        if t.type = .STAR then .ok (.rpt atom 0 U32MAX true, rest, cap1)
        else if t.type = .PLUS then .ok (.rpt atom 1 U32MAX true, rest, cap1)
        else if t.type = .QUESTION then .ok (.rpt atom 0 1 true, rest, cap1)
        else if t.type = .LBRACE then
          let p1 := parseNumber rest
          let p2 : Nat × List Token :=
            match p1.2 with
            | c :: r => if c.type = .COMMA then parseNumber r else (p1.1, c :: r)
            | [] => (p1.1, [])
          match p2.2 with
          | b :: r2 =>
            if b.type = .RBRACE then .ok (.rpt atom p1.1 p2.1 true, r2, cap1)
            else .error ("Expected '\x7d' after quantifier", t.position)
          | [] => .error ("Expected '\x7d' after quantifier", t.position)
        else .ok (atom, t :: rest, cap1)
  -- Parser::parseAtom.  The (?-modifier checks test for a
  -- LITERAL-typed token with value '?'; the capturing-group case uses
  -- the capture counter as it stands after the subtree was parsed,
  -- both exactly as in the source.
  | fuel + 1, .atom toks cap =>
    match toks with
    | [] => .error ("Unexpected token", 0)
    | t :: rest =>
      match t.type with
      | .LITERAL => .ok (.lit t.value, rest, cap)
      | .RANGE => .ok (.lit 45, rest, cap)
      | .COMMA => .ok (.lit 44, rest, cap)
      | .DOT => .ok (.dot, rest, cap)
      | .LPAREN =>
        match rest with
        | q :: rest1 =>
          if q.type = .LITERAL ∧ q.value = 63 then      -- "(?" non-capturing check
            match rest1 with
            | c :: rest2 =>
              if c.type = .LITERAL ∧ c.value = 58 then  -- ':'
                match parseGo fuel (.alt rest2 cap) with
                | .error e => .error e
                | .ok (node, toks2, cap2) =>
                  expectRParen "Expected ')' to close non-capturing group"
                    t.position node toks2 cap2
              else .error ("Invalid group modifier", t.position)
            | [] => .error ("Invalid group modifier", t.position)
          else if q.type = .LITERAL ∧ q.value = 61 then -- '=' positive lookahead
            match parseGo fuel (.alt rest1 cap) with
            | .error e => .error e
            | .ok (node, toks2, cap2) =>
              expectRParen "Expected ')' to close lookahead" t.position node toks2 cap2
          else if q.type = .LITERAL ∧ q.value = 33 then -- '!' negative lookahead
            match parseGo fuel (.alt rest1 cap) with
            | .error e => .error e
            | .ok (node, toks2, cap2) =>
              expectRParen "Expected ')' to close lookahead" t.position node toks2 cap2
          else
            match parseGo fuel (.alt (q :: rest1) (cap + 1)) with
            | .error e => .error e
            | .ok (node, toks2, cap2) =>
              expectRParen "Expected ')' to close group" t.position
                (.group node cap2) toks2 cap2
        | [] =>
          match parseGo fuel (.alt [] (cap + 1)) with
          | .error e => .error e
          | .ok (node, toks2, cap2) =>
            expectRParen "Expected ')' to close group" t.position
              (.group node cap2) toks2 cap2
      | .LBRACKET =>
        match parseCharClassNode fuel rest with
        | none => .error fuelErr
        | some (node, toks2) =>
          match toks2 with
          | r :: rr =>
            if r.type = .RBRACKET then .ok (node, rr, cap)
            else .error ("Expected ']' to close character class", t.position)
          | [] => .error ("Expected ']' to close character class", t.position)
      | .ESCAPE => .ok (parseEscape t.value, rest, cap)
      | .BACKREF =>
        let p := parseNumber rest
        .ok (.backref p.1, p.2, cap)
      | .CARET => .ok (.anchorStart, rest, cap)
      | .DOLLAR => .ok (.anchorEnd, rest, cap)
      | _ => .error ("Unexpected token", t.position)

/-- `Parser::parseAlternation`. -/
def parseAlternation (fuel : Nat) (toks : List Token) (cap : Nat) :
    Except RErr (AST × List Token × Nat) :=
  parseGo fuel (.alt toks cap)


/-- `Parser::parse`: run the alternation from capture counter 0 and
reject trailing tokens.  Returns the AST and `numCaptures`. -/
def parseTokens (fuel : Nat) (toks : List Token) : Except RErr (AST × Nat) :=
  match parseAlternation fuel toks 0 with
  | .error e => .error e
  | .ok (ast, rest, cap) =>
    match rest with
    | [] => .ok (ast, cap)
    | r :: _ => .error ("Unexpected tokens at end of pattern", r.position)

/-- VM instructions (`struct Instruction`), one constructor per opcode
with the fields that opcode uses.  `SPLIT` carries its two targets
(preferred, alternate); `SAVE` and `BACKREF` carry the raw packed
operand that the VM decodes with `& 0xFFFF` and `>> 16`. -/
inductive Instruction where
  | CHAR (ch : Nat)
  | ANY
  | RANGE (lo hi : Nat)
  | CLASS (lo hi : Nat)
  | NOT_CLASS (lo hi : Nat)
  | CLASS_PRED (classType : Nat)
  | JUMP (target : Nat)
  | SPLIT (t1 t2 : Nat)
  | SAVE (operand : Nat)
  | MATCH
  | ANCHOR_START
  | ANCHOR_END
  | BACKREF (operand : Nat)
  deriving DecidableEq, Repr

/-- The `{n,m}` fall-through loop of the `REPEAT` case: apply the
child-emitting function `n` times to the accumulator. -/
def emitTimesF (f : List Instruction → List Instruction) :
    Nat → List Instruction → List Instruction
  | 0, acc => acc
  | n + 1, acc => emitTimesF f n (f acc)

/-- `Compiler::compileNode`: append the node's code to the accumulated
instruction list.  Jump/split targets are absolute indices, patched via
`List.set` exactly where the source patches the vector. -/
def compileNode : AST → List Instruction → List Instruction
  | .lit c, acc => acc ++ [.CHAR c]
  | .dot, acc => acc ++ [.ANY]
  | .cls lo hi ct, acc =>
    match ct with
    | some k => acc ++ [.CLASS_PRED k]
    | none => acc ++ [.CLASS lo hi]
  | .ncls lo hi ct, acc =>
    match ct with
    | some k => acc ++ [.CLASS_PRED (k ||| 16)]
    | none => acc ++ [.NOT_CLASS lo hi]
  | .anchorStart, acc => acc ++ [.ANCHOR_START]
  | .anchorEnd, acc => acc ++ [.ANCHOR_END]
  | .concat l r, acc => compileNode r (compileNode l acc)
  | .alternate a b, acc =>
    let splitPos := acc.length
    let acc2 := compileNode a (acc ++ [.SPLIT 0 0])
    let jumpPos := acc2.length
    let acc4 := (acc2 ++ [Instruction.JUMP 0]).set splitPos (.SPLIT (splitPos + 1) (jumpPos + 1))
    let acc5 := compileNode b acc4
    acc5.set jumpPos (.JUMP acc5.length)
  | .rpt child mn mx _g, acc =>
    if mx = U32MAX then
      if mn = 0 then
        -- '*': SPLIT(body, after) <body> JUMP(split)
        let splitPos := acc.length
        let acc2 := compileNode child (acc ++ [.SPLIT 0 0])
        let jumpPos := acc2.length
        ((acc2 ++ [Instruction.JUMP splitPos]).set splitPos (.SPLIT (splitPos + 1) (jumpPos + 1)))
      else
        -- '+': <body> SPLIT(body2, after) <body2> JUMP(split)
        let acc1 := compileNode child acc
        let splitPos := acc1.length
        let acc2 := compileNode child (acc1 ++ [.SPLIT 0 0])
        let jumpPos := acc2.length
        ((acc2 ++ [Instruction.JUMP splitPos]).set splitPos (.SPLIT (splitPos + 1) (jumpPos + 1)))
    else if mx = 1 ∧ mn = 0 then
      -- '?': SPLIT(body, after) <body>
      let splitPos := acc.length
      let acc2 := compileNode child (acc ++ [.SPLIT 0 0])
      acc2.set splitPos (.SPLIT (splitPos + 1) acc2.length)
    else if mx = 1 then compileNode child acc
    else emitTimesF (compileNode child) mn acc
  | .group child idx, acc =>
    (compileNode child (acc ++ [.SAVE (idx * 2)])) ++ [.SAVE (idx * 2 + 1)]
  | .backref idx, acc => acc ++ [.BACKREF idx]

/-- `Compiler::compile`: compile the root and append the single
trailing `MATCH`. -/
def compileProgram (ast : AST) : List Instruction :=
  compileNode ast [] ++ [.MATCH]

/-- Fuel budget handed to the parser: the recursion depth consumes at
least one token every few levels, so this bound is never reached. -/
def parserFuel (p : List Nat) : Nat := 8 * p.length + 64

/-- `Regex::compile`: lex, parse, compile.  Returns the program and
`numCaptures`. -/
def compilePattern (p : List Nat) : Except RErr (List Instruction × Nat) :=
  match lexAll p 0 with
  | .error e => .error e
  | .ok toks =>
    match parseTokens (parserFuel p) toks with
    | .error e => .error e
    | .ok (ast, nc) => .ok (compileProgram ast, nc)

/-- `CharClass::inClassExt`: membership of a byte in the 128-bit class
set (low 64 bits then high 64 bits); bytes at 128 and above never
match. -/
def inClassExt (lo hi c : Nat) : Bool :=
  if c < 64 then lo.testBit c
  else if c < 128 then hi.testBit (c - 64)
  else false

/-- A backtrack frame (`struct BacktrackPoint`): resume pc, text
position, and a snapshot of the capture vector. -/
structure Frame where
  pc : Nat
  textPos : Nat
  caps : List (Option Nat)
  deriving DecidableEq, Repr

/-- The VM state of `VM::executeAt`'s main loop. -/
structure VMState where
  pc : Nat
  textPos : Nat
  caps : List (Option Nat)
  stack : List Frame
  deriving DecidableEq, Repr

/-- One dispatch step either continues in a new state or terminates:
`done none` is "no match", `done (some caps)` carries the final capture
vector for `buildResult`. -/
inductive StepRes where
  | next (s : VMState)
  | done (r : Option (List (Option Nat)))
  deriving DecidableEq, Repr

/-- The `fail:` label: pop the backtrack stack, or report no-match when
it is empty. -/
def vmFail (s : VMState) : StepRes :=
  match s.stack with
  | [] => .done none
  | f :: rest => .next ⟨f.pc, f.textPos, f.caps, rest⟩

/-- One iteration of the dispatch loop of `VM::executeAt`.  A pc
outside the program falls out of the inner `while` without a match and
hence fails. -/
def vmStep (prog : List Instruction) (t : List Nat) (s : VMState) : StepRes :=
  match prog[s.pc]? with
  | none => vmFail s
  | some inst =>
    match inst with
    | .CHAR c =>
      if s.textPos < t.length ∧ t.getD s.textPos 0 = c then
        .next ⟨s.pc + 1, s.textPos + 1, s.caps, s.stack⟩
      else vmFail s
    | .ANY =>
      if s.textPos < t.length then
        .next ⟨s.pc + 1, s.textPos + 1, s.caps, s.stack⟩
      else vmFail s
    | .RANGE lo hi =>
      if s.textPos < t.length ∧ lo ≤ t.getD s.textPos 0 ∧ t.getD s.textPos 0 ≤ hi then
        .next ⟨s.pc + 1, s.textPos + 1, s.caps, s.stack⟩
      else vmFail s
    | .CLASS lo hi =>
      if s.textPos < t.length ∧ inClassExt lo hi (t.getD s.textPos 0) then
        .next ⟨s.pc + 1, s.textPos + 1, s.caps, s.stack⟩
      else vmFail s
    | .NOT_CLASS lo hi =>
      if s.textPos < t.length ∧ ¬ inClassExt lo hi (t.getD s.textPos 0) then
        .next ⟨s.pc + 1, s.textPos + 1, s.caps, s.stack⟩
      else vmFail s
    | .CLASS_PRED ty =>
      -- bit 0x10 negates; chars past the end read as '\0', and a negated
      -- predicate therefore matches (and advances) at end of text.
      let c := t.getD s.textPos 0
      let pm : Bool :=
        if ty &&& 15 = CLASS_DIGIT then decide (s.textPos < t.length) && isDigitByte c
        else if ty &&& 15 = CLASS_WORD then decide (s.textPos < t.length) && isWordByte c
        else if ty &&& 15 = CLASS_SPACE then decide (s.textPos < t.length) && isSpaceByte c
        else false
      if (if ty &&& 16 ≠ 0 then !pm else pm) then
        .next ⟨s.pc + 1, s.textPos + 1, s.caps, s.stack⟩
      else vmFail s
    | .JUMP tgt => .next ⟨tgt, s.textPos, s.caps, s.stack⟩
    | .SPLIT t1 t2 =>
      .next ⟨t1, s.textPos, s.caps, ⟨t2, s.textPos, s.caps⟩ :: s.stack⟩
    | .SAVE op =>
      let nxt := op / 65536                                -- operand >> 16
      .next ⟨if 0 < nxt then nxt else s.pc + 1, s.textPos,
             s.caps.set (op % 65536) (some s.textPos), s.stack⟩
    | .MATCH => .done (some (s.caps.set 1 (some s.textPos)))
    | .ANCHOR_START =>
      if s.textPos = 0 then .next ⟨s.pc + 1, s.textPos, s.caps, s.stack⟩ else vmFail s
    | .ANCHOR_END =>
      if s.textPos = t.length then .next ⟨s.pc + 1, s.textPos, s.caps, s.stack⟩
      else vmFail s
    | .BACKREF _ => vmFail s

/-- Run the dispatch loop with the given fuel (`none` = fuel ran out,
i.e. the C++ loop has not terminated within that many steps). -/
def vmRun (prog : List Instruction) (t : List Nat) :
    Nat → VMState → Option (Option (List (Option Nat)))
  | 0, _ => none
  | fuel + 1, s =>
    match vmStep prog t s with
    | .next s' => vmRun prog t fuel s'
    | .done r => some r

/-- Reading capture slot `i`; `none` is the `npos` sentinel. -/
def capVal (caps : List (Option Nat)) (i : Nat) : Option Nat := caps.getD i none

/-- `std::string::substr(pos, len)` on byte lists. -/
def slice (t : List Nat) (pos len : Nat) : List Nat := (t.drop pos).take len

/-- A reported capture (`struct Match`): span and captured text, with
`none`/`none` as the `{npos, npos, ""}` sentinel entry. -/
structure MatchEntry where
  start : Option Nat
  stop : Option Nat
  captured : List Nat
  deriving DecidableEq, Repr

/-- `struct MatchResult` (success is encoded by the surrounding
`Option`, so the `matched` flag is dropped). -/
structure MatchResult where
  position : Nat
  matched_text : List Nat
  captures : List MatchEntry
  deriving DecidableEq, Repr

/-- `MatchResult::length()`. -/
def MatchResult.length (r : MatchResult) : Nat := r.matched_text.length

/-- `MatchResult::group(idx)`. -/
def MatchResult.group (r : MatchResult) (idx : Nat) : List Nat :=
  if idx = 0 then r.matched_text
  else if idx ≤ r.captures.length then (r.captures.getD (idx - 1) ⟨none, none, []⟩).captured
  else []

/-- Both endpoints of group `i`'s raw span, when set. -/
def spanRaw (caps : List (Option Nat)) (i : Nat) : Option (Nat × Nat) :=
  match capVal caps (2 * i), capVal caps (2 * i + 1) with
  | some s, some e => some (s, e)
  | _, _ => none

/-- The containment test of `VM::buildResult`: `i`'s span strictly
inside `j`'s (`j_start <= i_start && i_end <= j_end &&
(j_start < i_start || i_end < j_end)`). -/
def strictlyInside (iS iE jS jE : Nat) : Bool :=
  decide (jS ≤ iS) && decide (iE ≤ jE) && (decide (jS < iS) || decide (iE < jE))

/-- One step of the `is_contained` marking loop: group `i` is marked if
some other group `j` that is set and not currently marked strictly
contains it. -/
def markStep (caps : List (Option Nat)) (cc : Nat) (st : List Bool) (i : Nat) :
    List Bool :=
  match spanRaw caps i with
  | none => st
  | some (iS, iE) =>
    if (List.range' 1 (cc - 1)).any (fun j =>
        !(decide (i = j)) && !(st.getD j false) &&
        (match spanRaw caps j with
         | none => false
         | some (jS, jE) => strictlyInside iS iE jS jE))
    then st.set i true else st

/-- The full `is_contained` vector after the outer loop over
`i = 1 … captureCount-1`. -/
def marksOf (caps : List (Option Nat)) (cc : Nat) : List Bool :=
  (List.range' 1 (cc - 1)).foldl (markStep caps cc) (List.replicate cc false)

/-- The entry pushed for an unmarked group: a real span when both slots
are set with `end > start`, otherwise the sentinel. -/
def capEntry (t : List Nat) (caps : List (Option Nat)) (i : Nat) : MatchEntry :=
  match capVal caps (2 * i), capVal caps (2 * i + 1) with
  | some s, some e =>
    if s < e then ⟨some s, some e, slice t s (e - s)⟩ else ⟨none, none, []⟩
  | _, _ => ⟨none, none, []⟩

/-- The reported `captures` list: entries of the groups not marked
contained, in group order. -/
def buildCaptures (t : List Nat) (caps : List (Option Nat)) (cc : Nat) :
    List MatchEntry :=
  (List.range' 1 (cc - 1)).filterMap (fun i =>
    if (marksOf caps cc).getD i false then none else some (capEntry t caps i))

/-- `VM::buildResult` from the final capture vector. -/
def buildResult (t : List Nat) (caps : List (Option Nat)) (cc : Nat) : MatchResult :=
  let c0 := (capVal caps 0).getD 0
  let c1 := (capVal caps 1).getD 0
  ⟨c0, slice t c0 (c1 - c0), buildCaptures t caps cc⟩

/-- `≤` on reported span endpoints, `none` being the `npos` sentinel
(the largest `size_t` value). -/
def oLe : Option Nat → Option Nat → Bool
  | _, none => true
  | none, some _ => false
  | some x, some y => x ≤ y

/-- `<` on reported span endpoints, `none` being the `npos` sentinel. -/
def oLt : Option Nat → Option Nat → Bool
  | none, _ => false
  | some _, none => true
  | some x, some y => x < y

/-- Strict containment of reported entry `i`'s span within entry `j`'s
span, with the claim's comparisons (`j.start ≤ i.start ∧ i.end ≤ j.end`
plus strictness on one side) read over the `npos` sentinel. -/
def scEntry (i j : MatchEntry) : Bool :=
  oLe j.start i.start && oLe i.stop j.stop &&
    (oLt j.start i.start || oLt i.stop j.stop)

/-- The capture vector as `executeAt` initialises it: all `npos` except
slot 0, which holds the start offset. -/
def initCaps (cc pos : Nat) : List (Option Nat) :=
  (List.replicate (cc * 2) (none : Option Nat)).set 0 (some pos)

/-- `VM::executeAt`: try to match at exactly `pos`.  `cc` is the VM's
`captureCount_` (`numCaptures + 1` for a compiled pattern). -/
def executeAt (fuel cc : Nat) (prog : List Instruction) (t : List Nat) (pos : Nat) :
    Option (Option MatchResult) :=
  match vmRun prog t fuel ⟨0, pos, initCaps cc pos, []⟩ with
  | none => none
  | some none => some none
  | some (some caps) => some (some (buildResult t caps cc))

/-- The offset loop of `VM::search`: try `executeAt` at successive
offsets; a zero-width hit whose length equals `prev` at an offset
before the end is skipped.  `n` is the loop measure (`searchRun` always
supplies enough); `F` is the fuel handed to each `executeAt`. -/
def searchGo (F cc : Nat) (prog : List Instruction) (t : List Nat) :
    Nat → Nat → Nat → Option (Option MatchResult)
  | 0, _, _ => none
  | n + 1, pos, prev =>
    if pos ≤ t.length then
      match executeAt F cc prog t pos with
      | none => none
      | some (some r) =>
        if r.length = 0 ∧ r.length = prev ∧ pos < t.length then
          searchGo F cc prog t n (pos + 1) (if pos + 1 < t.length then r.length else 0)
        else some (some r)
      | some none => searchGo F cc prog t n (pos + 1) 0
    else some none

/-- `VM::search` / `Regex::search` from a start offset. -/
def searchRun (F cc : Nat) (prog : List Instruction) (t : List Nat) (start : Nat) :
    Option (Option MatchResult) :=
  searchGo F cc prog t (t.length + 2 - min start (t.length + 1)) start 0

/-- `Regex::searchAll`: accumulate matches, advancing to
`position + max(length, 1)` after each hit; zero-width hits repeating
the previous length before the end are skipped with a one-byte
advance. -/
def searchAllGo (F cc : Nat) (prog : List Instruction) (t : List Nat) :
    Nat → Nat → Nat → Option (List MatchResult)
  | 0, _, _ => none
  | fuel + 1, pos, prev =>
    if pos ≤ t.length then
      match executeAt F cc prog t pos with
      | none => none
      | some (some r) =>
        if r.length = 0 ∧ r.length = prev ∧ pos < t.length then
          searchAllGo F cc prog t fuel (pos + 1) prev
        else
          match searchAllGo F cc prog t fuel
              (r.position + (if 0 < r.length then r.length else 1)) r.length with
          | none => none
          | some rs => some (r :: rs)
      | some none => searchAllGo F cc prog t fuel (pos + 1) 0
    else some []

/-- `Regex::searchAll` with loop fuel `G` and per-execution fuel `F`. -/
def searchAllRun (G F cc : Nat) (prog : List Instruction) (t : List Nat) :
    Option (List MatchResult) :=
  searchAllGo F cc prog t G 0 0

/-- `Regex::expandReplacement`: `\0..\9` and `$0..$9` expand to capture
groups, `\n \r \t` to control bytes, other escaped bytes to themselves;
`$` not followed by a digit is kept with the following byte. -/
def expandReplacement (m : MatchResult) : List Nat → List Nat
  | [] => []
  | 92 :: nxt :: rest =>
    if isDigitByte nxt then m.group (nxt - 48) ++ expandReplacement m rest
    else (if nxt = 110 then 10 else if nxt = 114 then 13
          else if nxt = 116 then 9 else nxt) :: expandReplacement m rest
  | 36 :: nxt :: rest =>
    if isDigitByte nxt then m.group (nxt - 48) ++ expandReplacement m rest
    else 36 :: nxt :: expandReplacement m rest
  | c :: rest => c :: expandReplacement m rest

/-- `std::string::replace(pos, count, repl)` on byte lists (the
in-range case; the engine only calls it with `pos ≤ length`). -/
def stringReplace (s : List Nat) (pos count : Nat) (repl : List Nat) : List Nat :=
  s.take pos ++ repl ++ s.drop (pos + count)

/-- The `all = true` loop of `Regex::replace`: search from `pos`,
splice in the expanded replacement, resume just after it. -/
def replaceGo (F cc : Nat) (prog : List Instruction) (repl : List Nat) :
    Nat → List Nat → Nat → Option (List Nat)
  | 0, _, _ => none
  | fuel + 1, res, pos =>
    if pos < res.length then
      match searchRun F cc prog res pos with
      | none => none
      | some none => some res
      | some (some m) =>
        let r := expandReplacement m repl
        replaceGo F cc prog repl fuel
          (stringReplace res m.position m.length r) (m.position + r.length)
    else some res

/-- `Regex::replace(text, repl, all = true)` with loop fuel `G`. -/
def replaceAllRun (G F cc : Nat) (prog : List Instruction) (repl t : List Nat) :
    Option (List Nat) :=
  replaceGo F cc prog repl G t 0

/-- The compiled program of the pattern `(a*)*` (a nullable starred
body inside a star): `SPLIT 1 7 · SAVE 2 · SPLIT 3 5 · CHAR a ·
JUMP 2 · SAVE 3 · JUMP 0 · MATCH`. -/
def nestedStarProg : List Instruction :=
  [.SPLIT 1 7, .SAVE 2, .SPLIT 3 5, .CHAR 97, .JUMP 2, .SAVE 3, .JUMP 0, .MATCH]

/-- The capture vector reached after one round of the `(a*)*` loop on
the text `"b"` — the loop's steady state. -/
def nestedStarCaps : List (Option Nat) := [some 0, none, some 0, some 0]

/-! ## Theorems -/

set_option maxRecDepth 16384

/-- C1: the spec (and the parser's own comments, and the README's
feature table) say lookaround groups `(?=X)`, `(?!X)` are accepted with
the subtree emitted as if the parentheses were absent.  In fact every
`(?`-group fails to compile: the modifier checks test for a
`LITERAL`-typed token with value `'?'`, but the lexer emits a
`QUESTION`-typed token for `'?'`, so the checks never fire and the `?`
is then consumed as an atom, raising "Unexpected token" at its offset.
Both `(?=a)` and `(?!a)` fail at offset 1, while the bare
subexpression `a` compiles fine. -/
theorem lookahead_patterns_fail_to_compile :
    compilePattern [40, 63, 61, 97, 41] = .error ("Unexpected token", 1) ∧
    compilePattern [40, 63, 33, 97, 41] = .error ("Unexpected token", 1) ∧
    compilePattern [40, 63, 58, 97, 41] = .error ("Unexpected token", 1) ∧
    compilePattern [97] = .ok ([.CHAR 97, .MATCH], 0) :=
  ⟨rfl, rfl, rfl, rfl⟩

/-- C3: inside a bracket expression the class escapes `\D`, `\W`, `\S`
merge exactly the same positive bit contribution into the class masks
as `\d`, `\w`, `\s` respectively (for any surrounding state of the
item loop), negation being handled only by the bracket-level `^`. -/
theorem class_escape_negated_same_bits :
    ∀ (fuel : Nat) (neg : Bool) (rest : List Token) (pos lo hi : Nat),
      (classItems neg (fuel + 1) (⟨.ESCAPE, 68, pos⟩ :: rest) (lo, hi) =
        classItems neg (fuel + 1) (⟨.ESCAPE, 100, pos⟩ :: rest) (lo, hi)) ∧
      (classItems neg (fuel + 1) (⟨.ESCAPE, 87, pos⟩ :: rest) (lo, hi) =
        classItems neg (fuel + 1) (⟨.ESCAPE, 119, pos⟩ :: rest) (lo, hi)) ∧
      (classItems neg (fuel + 1) (⟨.ESCAPE, 83, pos⟩ :: rest) (lo, hi) =
        classItems neg (fuel + 1) (⟨.ESCAPE, 115, pos⟩ :: rest) (lo, hi)) := by
  intro fuel neg rest pos lo hi
  refine ⟨?_, ?_, ?_⟩ <;> simp [classItems]

/-- C8: a failure during VM execution is never surfaced as an error:
reaching a `BACKREF` opcode takes the fail path unconditionally, the
fail path pops the backtrack stack when it can, and with an exhausted
stack it reports a definite "no match"; in particular a program
consisting of a `BACKREF` yields `some none` (no match), not an
error, for every input. -/
theorem backref_and_failures_report_no_match :
    (∀ (prog : List Instruction) (t : List Nat) (s : VMState) (k : Nat),
      prog[s.pc]? = some (.BACKREF k) → vmStep prog t s = vmFail s) ∧
    (∀ s : VMState, s.stack = [] → vmFail s = .done none) ∧
    (∀ (s : VMState) (f : Frame) (fs : List Frame), s.stack = f :: fs →
      vmFail s = .next ⟨f.pc, f.textPos, f.caps, fs⟩) ∧
    (∀ (fuel cc k : Nat) (t : List Nat) (pos : Nat),
      executeAt (fuel + 1) cc [.BACKREF k] t pos = some none) := by
  refine ⟨?_, ?_, ?_, ?_⟩
  · intro prog t s k h
    unfold vmStep
    rw [h]
  · intro s h
    simp [vmFail, h]
  · intro s f fs h
    simp [vmFail, h]
  · intro fuel cc k t pos
    rfl

theorem backref_and_failures_report_no_match_witness :
    vmStep [.BACKREF 1] [] ⟨0, 0, [], []⟩ = vmFail ⟨0, 0, [], []⟩ ∧
    vmFail (⟨0, 0, [], []⟩ : VMState) = .done none ∧
    vmFail (⟨0, 0, [], [⟨7, 0, []⟩]⟩ : VMState) = .next ⟨7, 0, [], []⟩ ∧
    executeAt 5 1 [.BACKREF 1] [] 0 = some none :=
  ⟨backref_and_failures_report_no_match.1 _ _ _ 1 rfl,
   backref_and_failures_report_no_match.2.1 _ rfl,
   backref_and_failures_report_no_match.2.2.1 _ _ _ rfl,
   backref_and_failures_report_no_match.2.2.2 4 1 1 [] 0⟩

/-- A dangling pattern forces the lexer into the incomplete-escape
error at the offset of the final backslash. -/
theorem lexAll_dangling : ∀ (p : List Nat) (pos : Nat),
    danglingBackslash p = true →
    lexAll p pos = .error ("Incomplete escape sequence", pos + p.length - 1) := by
  intro p
  induction p using danglingBackslash.induct with
  | case1 => intro pos h; simp [danglingBackslash] at h
  | case2 c =>
    intro pos h
    simp only [danglingBackslash, decide_eq_true_eq] at h
    subst h
    simp [lexAll]
  | case3 d r ih =>
    intro pos h
    rw [danglingBackslash, if_pos rfl] at h
    have hr : r ≠ [] := by
      intro he; rw [he] at h; simp [danglingBackslash] at h
    have hr1 : 1 ≤ r.length := List.length_pos.mpr hr
    rw [lexAll]
    simp only [if_pos rfl]
    rw [ih (pos + 2) h]
    simp only [List.length_cons, if_true, Except.error.injEq, Prod.mk.injEq, true_and]
    omega
  | case4 c d r hc ih =>
    intro pos h
    rw [danglingBackslash, if_neg hc] at h
    rw [lexAll, if_neg hc]
    by_cases hws : c = 32 ∨ c = 9
    · rw [if_pos hws]
      rw [ih (pos + 1) h]
      simp only [List.length_cons, Except.error.injEq, Prod.mk.injEq, true_and]
      omega
    · rw [if_neg hws]
      rw [ih (pos + 1) h]
      simp only [List.length_cons, Except.error.injEq, Prod.mk.injEq, true_and]
      omega

/-- C9: a pattern ending in a dangling backslash (a final backslash not
itself consumed by a preceding escaping backslash) fails compilation
with "Incomplete escape sequence" positioned at that backslash's byte
offset; at any other position a backslash consumes the following byte
and emits an `ESCAPE` token carrying it. -/
theorem dangling_backslash_incomplete_escape :
    (∀ p : List Nat, danglingBackslash p = true →
      compilePattern p = .error ("Incomplete escape sequence", p.length - 1)) ∧
    (∀ (e : Nat) (rest : List Nat) (pos : Nat),
      lexAll (92 :: e :: rest) pos =
        match lexAll rest (pos + 2) with
        | .error err => .error err
        | .ok ts => .ok (⟨.ESCAPE, e, pos⟩ :: ts)) := by
  constructor
  · intro p h
    have := lexAll_dangling p 0 h
    simp [compilePattern, this]
  · intro e rest pos
    rfl

theorem dangling_backslash_incomplete_escape_witness :
    danglingBackslash [97, 92] = true ∧
    compilePattern [97, 92] = .error ("Incomplete escape sequence", 1) :=
  ⟨rfl, dangling_backslash_incomplete_escape.1 [97, 92] rfl⟩

/-- Running the straight-line program `CHAR c`ⁿ `MATCH` from a pc with
`k` characters left consumes exactly those `k` bytes when they all
equal `c` and otherwise reports a definite no-match. -/
theorem vmRun_char_block (c n : Nat) (t : List Nat) :
    ∀ (k pc pos : Nat) (caps : List (Option Nat)), pc + k = n →
      vmRun (List.replicate n (Instruction.CHAR c) ++ [Instruction.MATCH]) t (k + 2)
          ⟨pc, pos, caps, []⟩ =
        some (if (t.drop pos).take k = List.replicate k c
              then some (caps.set 1 (some (pos + k))) else none) := by
  intro k
  induction k with
  | zero =>
    intro pc pos caps hpc
    have hpc' : pc = n := by omega
    have hM : (List.replicate n (Instruction.CHAR c) ++ [Instruction.MATCH])[pc]? =
        some Instruction.MATCH := by
      rw [List.getElem?_append_right (by simp only [List.length_replicate]; omega),
        show pc - (List.replicate n (Instruction.CHAR c)).length = 0 from by
          simp only [List.length_replicate]; omega]
      rfl
    have hstep : vmStep (List.replicate n (Instruction.CHAR c) ++ [Instruction.MATCH]) t
        ⟨pc, pos, caps, []⟩ = .done (some (caps.set 1 (some pos))) := by
      unfold vmStep
      rw [hM]
    rw [show (0 + 2 : Nat) = 1 + 1 from rfl, vmRun, hstep]
    simp
  | succ k ihk =>
    intro pc pos caps hpc
    have hpcn : pc < n := by omega
    have hC : (List.replicate n (Instruction.CHAR c) ++ [Instruction.MATCH])[pc]? =
        some (Instruction.CHAR c) := by
      rw [List.getElem?_append]
      simp [List.length_replicate, List.getElem?_replicate, hpcn]
    have hstep : vmStep (List.replicate n (Instruction.CHAR c) ++ [Instruction.MATCH]) t
        ⟨pc, pos, caps, []⟩ =
        (if pos < t.length ∧ t.getD pos 0 = c
         then .next ⟨pc + 1, pos + 1, caps, []⟩
         else vmFail ⟨pc, pos, caps, []⟩) := by
      unfold vmStep
      rw [hC]
    rw [show k + 1 + 2 = (k + 2) + 1 from rfl, vmRun, hstep]
    by_cases hcond : pos < t.length ∧ t.getD pos 0 = c
    · rw [if_pos hcond]
      show vmRun (List.replicate n (Instruction.CHAR c) ++ [Instruction.MATCH]) t (k + 2)
          ⟨pc + 1, pos + 1, caps, []⟩ =
        some (if (t.drop pos).take (k + 1) = List.replicate (k + 1) c
              then some (caps.set 1 (some (pos + (k + 1)))) else none)
      rw [ihk (pc + 1) (pos + 1) caps (by omega)]
      have hdrop : t.drop pos = t.getD pos 0 :: t.drop (pos + 1) := by
        rw [List.drop_eq_getElem_cons hcond.1]
        congr 1
        exact (List.getD_eq_getElem t 0 hcond.1).symm
      have hAB : ((t.drop pos).take (k + 1) = List.replicate (k + 1) c) =
          ((t.drop (pos + 1)).take k = List.replicate k c) := by
        rw [hdrop, hcond.2, List.take_succ_cons, List.replicate_succ]
        simp
      have hpos : pos + (k + 1) = pos + 1 + k := by omega
      simp only [hpos, hAB]
    · rw [if_neg hcond]
      have hB : ¬ ((t.drop pos).take (k + 1) = List.replicate (k + 1) c) := by
        intro hEq
        apply hcond
        have hlen := congrArg List.length hEq
        simp only [List.length_take, List.length_replicate, List.length_drop] at hlen
        have hpos : pos < t.length := by omega
        refine ⟨hpos, ?_⟩
        rw [List.drop_eq_getElem_cons hpos, List.take_succ_cons,
          List.replicate_succ] at hEq
        rw [List.getD_eq_getElem _ _ hpos]
        exact (List.cons_eq_cons.mp hEq).1
      rw [if_neg hB]
      rfl

/-- C10: the escapes `\b` and `\B` outside a bracket expression both
parse as the literal character `b` (byte 98): `parseEscape` maps both
to `Literal('b')`, the pattern `\B` compiles to the program
`CHAR 'b' · MATCH`, and executing that program at any position of any
text succeeds exactly when the byte there is `b`, matching that one
byte — no word-boundary assertion, no compile failure. -/
theorem word_boundary_escapes_literal_b :
    parseEscape 98 = .lit 98 ∧ parseEscape 66 = .lit 98 ∧
    compilePattern [92, 66] = .ok ([.CHAR 98, .MATCH], 0) ∧
    compilePattern [92, 98] = .ok ([.CHAR 98, .MATCH], 0) ∧
    (∀ (t : List Nat) (pos : Nat),
      executeAt 3 1 [.CHAR 98, .MATCH] t pos =
        some (if pos < t.length ∧ t.getD pos 0 = 98
              then some ⟨pos, [98], []⟩ else none)) := by
  refine ⟨rfl, rfl, rfl, rfl, ?_⟩
  intro t pos
  have h2 : vmRun [Instruction.CHAR 98, Instruction.MATCH] t (1 + 2)
      ⟨0, pos, initCaps 1 pos, []⟩ =
      some (if (t.drop pos).take 1 = List.replicate 1 98
            then some ((initCaps 1 pos).set 1 (some (pos + 1))) else none) :=
    vmRun_char_block 98 1 t 1 0 pos (initCaps 1 pos) rfl
  unfold executeAt
  rw [show (3 : Nat) = 1 + 2 from rfl, h2]
  by_cases hc : pos < t.length ∧ t.getD pos 0 = 98
  · have hcond : (t.drop pos).take 1 = List.replicate 1 98 := by
      rw [List.drop_eq_getElem_cons hc.1, List.take_succ_cons, List.replicate_succ,
        List.take_zero, List.replicate_zero]
      rw [← List.getD_eq_getElem t 0 hc.1, hc.2]
    rw [if_pos hcond, if_pos hc]
    show some (some (⟨pos, (t.drop pos).take (pos + 1 - pos), []⟩ : MatchResult)) =
      some (some ⟨pos, [98], []⟩)
    rw [show pos + 1 - pos = 1 from by omega]
    rw [List.drop_eq_getElem_cons hc.1, List.take_succ_cons, List.take_zero]
    rw [← List.getD_eq_getElem t 0 hc.1, hc.2]
  · have hB : ¬ ((t.drop pos).take 1 = List.replicate 1 98) := by
      intro hEq
      apply hc
      have hlen := congrArg List.length hEq
      simp only [List.length_take, List.length_replicate, List.length_drop] at hlen
      have hpos : pos < t.length := by omega
      refine ⟨hpos, ?_⟩
      rw [List.drop_eq_getElem_cons hpos, List.take_succ_cons,
        List.replicate_succ] at hEq
      rw [List.getD_eq_getElem _ _ hpos]
      exact (List.cons_eq_cons.mp hEq).1
    rw [if_neg hB, if_neg hc]

/-- C4 counterexample: for the in-scope bounds `(min, max) = (0, 1)` —
the pattern `a{0,1}`, a finite bound with `m > n` — the compiler does
NOT emit the child exactly `min = 0` times: it emits the `?`-scheme
`SPLIT · CHAR a` (an optional tail), and the compiled program matches
one repetition (`"a"`, length 1 > 0), so repetitions above `n` ARE
matched. -/
theorem repeat_zero_one_emits_optional_tail :
    compilePattern [97, 123, 48, 44, 49, 125] =
      .ok ([.SPLIT 1 2, .CHAR 97, .MATCH], 0) ∧
    compileProgram (.rpt (.lit 97) 0 1 true) ≠
      emitTimesF (compileNode (.lit 97)) 0 [] ++ [.MATCH] ∧
    executeAt 4 1 [.SPLIT 1 2, .CHAR 97, .MATCH] [97] 0 =
      some (some ⟨0, [97], []⟩) :=
  ⟨rfl, by decide, rfl⟩

/-- `emitTimesF` over a literal child lays down `n` copies of its
`CHAR`. -/
theorem emitTimesF_lit (c : Nat) : ∀ (n : Nat) (acc : List Instruction),
    emitTimesF (compileNode (.lit c)) n acc =
      acc ++ List.replicate n (.CHAR c) := by
  intro n
  induction n with
  | zero => intro acc; simp [emitTimesF]
  | succ n ih =>
    intro acc
    rw [emitTimesF]
    show emitTimesF (compileNode (.lit c)) n (acc ++ [.CHAR c]) = _
    rw [ih]
    simp [List.replicate_succ]

/-- C4 (amended): for a `Repeat` node with a finite bound within the
claim's scope (`{n}` or `{n,m}` with `n ≤ m`, `m ≠ UINT32_MAX`) and
excluding `(min, max) = (0, 1)` — which compiles to the optional
`?`-scheme instead — the compiler emits the child fragment exactly
`min` times with no optional tail; consequently for a literal child the
compiled program matches at a position exactly when the next `min`
bytes all equal the literal, consuming exactly `min` repetitions (a
further repetition present in the text is not consumed). -/
theorem repeat_finite_emits_min_copies :
    (∀ (child : AST) (mn mx : Nat) (g : Bool) (acc : List Instruction),
      mx ≠ U32MAX → mn ≤ mx → ¬(mn = 0 ∧ mx = 1) →
      compileNode (.rpt child mn mx g) acc = emitTimesF (compileNode child) mn acc) ∧
    (∀ (c mn mx : Nat) (g : Bool) (t : List Nat) (pos : Nat),
      mx ≠ U32MAX → mn ≤ mx → ¬(mn = 0 ∧ mx = 1) →
      executeAt (mn + 2) 1 (compileProgram (.rpt (.lit c) mn mx g)) t pos =
        some (if (t.drop pos).take mn = List.replicate mn c
              then some ⟨pos, List.replicate mn c, []⟩ else none)) := by
  have main : ∀ (child : AST) (mn mx : Nat) (g : Bool) (acc : List Instruction),
      mx ≠ U32MAX → mn ≤ mx → ¬(mn = 0 ∧ mx = 1) →
      compileNode (.rpt child mn mx g) acc = emitTimesF (compileNode child) mn acc := by
    intro child mn mx g acc h1 h2 h3
    rw [compileNode]
    rw [if_neg h1]
    rw [if_neg (fun hx => h3 ⟨hx.2, hx.1⟩)]
    by_cases hmx1 : mx = 1
    · subst hmx1
      have hmn1 : mn = 1 := by omega
      subst hmn1
      rw [if_pos rfl]
      rfl
    · rw [if_neg hmx1]
  refine ⟨main, ?_⟩
  intro c mn mx g t pos h1 h2 h3
  have hprog : compileProgram (.rpt (.lit c) mn mx g) =
      List.replicate mn (Instruction.CHAR c) ++ [Instruction.MATCH] := by
    unfold compileProgram
    rw [main (.lit c) mn mx g [] h1 h2 h3, emitTimesF_lit]
    simp
  rw [hprog]
  have hrun : vmRun (List.replicate mn (Instruction.CHAR c) ++ [Instruction.MATCH]) t
      (mn + 2) ⟨0, pos, initCaps 1 pos, []⟩ =
      some (if (t.drop pos).take mn = List.replicate mn c
            then some ((initCaps 1 pos).set 1 (some (pos + mn))) else none) :=
    vmRun_char_block c mn t mn 0 pos (initCaps 1 pos) (by omega)
  unfold executeAt
  rw [hrun]
  by_cases hcond : (t.drop pos).take mn = List.replicate mn c
  · rw [if_pos hcond, if_pos hcond]
    show some (some (⟨pos, (t.drop pos).take (pos + mn - pos), []⟩ : MatchResult)) = _
    rw [show pos + mn - pos = mn from by omega, hcond]
  · rw [if_neg hcond, if_neg hcond]

theorem repeat_finite_emits_min_copies_witness :
    compileNode (.rpt (.lit 97) 2 3 true) [] = emitTimesF (compileNode (.lit 97)) 2 [] ∧
    executeAt 4 1 (compileProgram (.rpt (.lit 97) 2 3 true)) [97, 97, 97] 0 =
      some (some ⟨0, [97, 97], []⟩) := by
  constructor
  · exact repeat_finite_emits_min_copies.1 (.lit 97) 2 3 true []
      (by decide) (by decide) (by decide)
  · have h : executeAt 4 1 (compileProgram (.rpt (.lit 97) 2 3 true)) [97, 97, 97] 0 =
        some (if ([97, 97, 97].drop 0).take 2 = List.replicate 2 97
              then some ⟨0, List.replicate 2 97, []⟩ else none) :=
      repeat_finite_emits_min_copies.2 97 2 3 true [97, 97, 97] 0
        (by decide) (by decide) (by decide)
    rw [h]
    decide

/-- C2 counterexample: for the pattern `a*` on the text `"b"`,
`executeAt` succeeds at offset 0 (a zero-width hit), yet `search`
starting at 0 does not return that first hit: it skips it and returns
the zero-width hit at offset 1 (end of text) instead, so the result is
not the one produced at the smallest succeeding offset. -/
theorem search_skips_first_zero_width_hit :
    compilePattern [97, 42] = .ok ([.SPLIT 1 3, .CHAR 97, .JUMP 0, .MATCH], 0) ∧
    executeAt 9 1 [.SPLIT 1 3, .CHAR 97, .JUMP 0, .MATCH] [98] 0 =
      some (some ⟨0, [], []⟩) ∧
    searchRun 9 1 [.SPLIT 1 3, .CHAR 97, .JUMP 0, .MATCH] [98] 0 =
      some (some ⟨1, [], []⟩) :=
  ⟨rfl, rfl, rfl⟩

/-- The invariant characterisation of the `VM::search` loop when the
tracked previous-match length is 0 (its only reachable value): a
returned hit is the executeAt result at the first offset whose hit has
nonzero length or lies at the end of the text, every earlier offset
having failed or produced a skipped zero-width hit; a definite
no-match means every offset in range behaves that way. -/
theorem searchGo_spec (F cc : Nat) (prog : List Instruction) (t : List Nat) :
    ∀ (n pos : Nat),
      (∀ r, searchGo F cc prog t n pos 0 = some (some r) →
        ∃ p, pos ≤ p ∧ p ≤ t.length ∧ executeAt F cc prog t p = some (some r) ∧
          (r.length ≠ 0 ∨ p = t.length) ∧
          (∀ q, pos ≤ q → q < p →
            ∃ res, executeAt F cc prog t q = some res ∧
              ∀ r', res = some r' → r'.length = 0 ∧ q < t.length)) ∧
      (searchGo F cc prog t n pos 0 = some none →
        ∀ p, pos ≤ p → p ≤ t.length →
          ∀ r', executeAt F cc prog t p = some (some r') →
            r'.length = 0 ∧ p < t.length) := by
  intro n
  induction n with
  | zero =>
    intro pos
    constructor
    · intro r h
      simp [searchGo] at h
    · intro h
      simp [searchGo] at h
  | succ n ih =>
    intro pos
    constructor
    · intro r h
      rw [searchGo] at h
      by_cases hpos : pos ≤ t.length
      · rw [if_pos hpos] at h
        cases hexec : executeAt F cc prog t pos with
        | none =>
          simp only [hexec] at h
          exact Option.noConfusion h
        | some res =>
          cases res with
          | none =>
            simp only [hexec] at h
            obtain ⟨p, hp1, hp2, hp3, hp4, hp5⟩ := (ih (pos + 1)).1 r h
            refine ⟨p, by omega, hp2, hp3, hp4, ?_⟩
            intro q hq1 hq2
            by_cases hq : q = pos
            · subst hq
              exact ⟨none, hexec, fun r' hr' => by cases hr'⟩
            · exact hp5 q (by omega) hq2
          | some r0 =>
            simp only [hexec] at h
            by_cases hskip : r0.length = 0 ∧ r0.length = 0 ∧ pos < t.length
            · rw [if_pos hskip] at h
              have hz : (if pos + 1 < t.length then r0.length else 0) = 0 := by
                rw [hskip.1, ite_self]
              rw [hz] at h
              obtain ⟨p, hp1, hp2, hp3, hp4, hp5⟩ := (ih (pos + 1)).1 r h
              refine ⟨p, by omega, hp2, hp3, hp4, ?_⟩
              intro q hq1 hq2
              by_cases hq : q = pos
              · subst hq
                refine ⟨some r0, hexec, fun r' hr' => ?_⟩
                have : r0 = r' := by
                  simpa using hr'
                subst this
                exact ⟨hskip.1, hskip.2.2⟩
              · exact hp5 q (by omega) hq2
            · rw [if_neg hskip] at h
              have hr : r0 = r := by
                simpa using h
              subst hr
              refine ⟨pos, le_refl pos, hpos, hexec, ?_, ?_⟩
              · by_cases h0 : r0.length = 0
                · right
                  have : ¬ pos < t.length := fun hlt => hskip ⟨h0, h0, hlt⟩
                  omega
                · left; exact h0
              · intro q hq1 hq2
                omega
      · rw [if_neg hpos] at h
        simp at h
    · intro h
      rw [searchGo] at h
      by_cases hpos : pos ≤ t.length
      · rw [if_pos hpos] at h
        cases hexec : executeAt F cc prog t pos with
        | none =>
          simp only [hexec] at h
          exact Option.noConfusion h
        | some res =>
          cases res with
          | none =>
            simp only [hexec] at h
            intro p hp1 hp2 r' hr'
            by_cases hp : p = pos
            · subst hp
              rw [hexec] at hr'
              cases hr'
            · exact (ih (pos + 1)).2 h p (by omega) hp2 r' hr'
          | some r0 =>
            simp only [hexec] at h
            by_cases hskip : r0.length = 0 ∧ r0.length = 0 ∧ pos < t.length
            · rw [if_pos hskip] at h
              have hz : (if pos + 1 < t.length then r0.length else 0) = 0 := by
                rw [hskip.1, ite_self]
              rw [hz] at h
              intro p hp1 hp2 r' hr'
              by_cases hp : p = pos
              · subst hp
                rw [hexec] at hr'
                have : r0 = r' := by simpa using hr'
                subst this
                exact ⟨hskip.1, hskip.2.2⟩
              · exact (ih (pos + 1)).2 h p (by omega) hp2 r' hr'
            · rw [if_neg hskip] at h
              simp at h
      · intro p hp1 hp2 r' hr'
        omega

/-- C2 (amended): `search(text, start)` tries `executeAt` at offsets
`start, start+1, …, len`, but does not always return the first hit: a
zero-width hit at an offset strictly before the end of the text is
skipped (the loop's zero-width guard, whose tracked previous length is
always 0).  What holds is: a returned result is the `executeAt` result
at the smallest offset whose hit has nonzero length or sits at offset
`len`, all earlier offsets having failed or produced such a skipped
zero-width hit; and a "no match" answer means every offset in range
either fails or produces a skipped zero-width hit. -/
theorem search_first_hit_amended :
    (∀ (F cc : Nat) (prog : List Instruction) (t : List Nat) (start : Nat)
        (r : MatchResult),
      searchRun F cc prog t start = some (some r) →
      ∃ p, start ≤ p ∧ p ≤ t.length ∧
        executeAt F cc prog t p = some (some r) ∧
        (r.length ≠ 0 ∨ p = t.length) ∧
        (∀ q, start ≤ q → q < p →
          ∃ res, executeAt F cc prog t q = some res ∧
            ∀ r', res = some r' → r'.length = 0 ∧ q < t.length)) ∧
    (∀ (F cc : Nat) (prog : List Instruction) (t : List Nat) (start : Nat),
      searchRun F cc prog t start = some none →
      ∀ p, start ≤ p → p ≤ t.length →
        ∀ r', executeAt F cc prog t p = some (some r') →
          r'.length = 0 ∧ p < t.length) := by
  constructor
  · intro F cc prog t start r h
    exact (searchGo_spec F cc prog t (t.length + 2 - min start (t.length + 1)) start).1 r h
  · intro F cc prog t start h
    exact (searchGo_spec F cc prog t (t.length + 2 - min start (t.length + 1)) start).2 h

theorem search_first_hit_amended_witness :
    ∃ p, 0 ≤ p ∧ p ≤ 1 ∧
      executeAt 9 1 [.SPLIT 1 3, .CHAR 97, .JUMP 0, .MATCH] [98] p =
        some (some ⟨1, [], []⟩) ∧
      (MatchResult.length ⟨1, [], []⟩ ≠ 0 ∨ p = 1) ∧
      (∀ q, 0 ≤ q → q < p →
        ∃ res, executeAt 9 1 [.SPLIT 1 3, .CHAR 97, .JUMP 0, .MATCH] [98] q = some res ∧
          ∀ r', res = some r' → r'.length = 0 ∧ q < 1) :=
  search_first_hit_amended.1 9 1 [.SPLIT 1 3, .CHAR 97, .JUMP 0, .MATCH] [98] 0
    ⟨1, [], []⟩ rfl

/-- Splicing the slice `t[pos, pos+L0)` back over its own span (with
the slice's length as the replaced count, as the engine does) leaves
the string unchanged — for every `pos` and `L0`, clamping included. -/
theorem stringReplace_self_slice (t : List Nat) (pos L0 : Nat) :
    stringReplace t pos ((slice t pos L0).length) (slice t pos L0) = t := by
  unfold stringReplace slice
  rw [List.length_take]
  have h1 : t.drop (pos + min L0 (t.drop pos).length) =
      (t.drop pos).drop (min L0 (t.drop pos).length) := by
    rw [List.drop_drop, Nat.add_comm]
  rw [h1]
  have h2 : (t.drop pos).take L0 = (t.drop pos).take (min L0 (t.drop pos).length) := by
    rw [List.take_eq_take]
    omega
  rw [h2, List.append_assoc, List.take_append_drop, List.take_append_drop]

/-- A successful `executeAt` result is a `buildResult` of some final
capture vector. -/
theorem executeAt_result (F cc : Nat) (prog : List Instruction) (t : List Nat)
    (p : Nat) (r : MatchResult) (h : executeAt F cc prog t p = some (some r)) :
    ∃ caps, r = buildResult t caps cc := by
  unfold executeAt at h
  cases hrun : vmRun prog t F ⟨0, p, initCaps cc p, []⟩ with
  | none =>
    rw [hrun] at h
    exact Option.noConfusion h
  | some o =>
    cases o with
    | none =>
      rw [hrun] at h
      exact Option.noConfusion (Option.some.inj h)
    | some caps =>
      rw [hrun] at h
      exact ⟨caps, (Option.some.inj (Option.some.inj h)).symm⟩

/-- A successful `search` result is a `buildResult` of some final
capture vector. -/
theorem searchRun_result (F cc : Nat) (prog : List Instruction) (res : List Nat)
    (pos : Nat) (m : MatchResult)
    (h : searchRun F cc prog res pos = some (some m)) :
    ∃ caps, m = buildResult res caps cc := by
  obtain ⟨p, _, _, hexec, _, _⟩ :=
    (searchGo_spec F cc prog res (res.length + 2 - min pos (res.length + 1)) pos).1 m h
  exact executeAt_result F cc prog res p m hexec

/-- One `replace` iteration with replacement `"$0"` leaves the subject
unchanged: the expansion of `"$0"` is the matched text, which is by
construction the slice of the subject at the reported span. -/
theorem replace_step_id (t : List Nat) (caps : List (Option Nat)) (cc : Nat) :
    stringReplace t (buildResult t caps cc).position (buildResult t caps cc).length
      (expandReplacement (buildResult t caps cc) [36, 48]) = t := by
  have hexp : expandReplacement (buildResult t caps cc) [36, 48] =
      (buildResult t caps cc).matched_text := by
    have hd : isDigitByte 48 = true := by decide
    simp [expandReplacement, MatchResult.group, hd]
  rw [hexp]
  exact stringReplace_self_slice t ((capVal caps 0).getD 0)
    (((capVal caps 1).getD 0) - ((capVal caps 0).getD 0))

/-- The `replace` loop with replacement `"$0"` never changes the
subject string. -/
theorem replaceGo_id (F cc : Nat) (prog : List Instruction) :
    ∀ (fuel : Nat) (res : List Nat) (pos : Nat) (out : List Nat),
      replaceGo F cc prog [36, 48] fuel res pos = some out → out = res := by
  intro fuel
  induction fuel with
  | zero =>
    intro res pos out h
    simp [replaceGo] at h
  | succ fuel ih =>
    intro res pos out h
    rw [replaceGo] at h
    by_cases hpos : pos < res.length
    · rw [if_pos hpos] at h
      cases hsr : searchRun F cc prog res pos with
      | none =>
        simp only [hsr] at h
        exact Option.noConfusion h
      | some o =>
        cases o with
        | none =>
          simp only [hsr] at h
          exact (Option.some.inj h).symm
        | some m =>
          simp only [hsr] at h
          obtain ⟨caps, hm⟩ := searchRun_result F cc prog res pos m hsr
          have hid : stringReplace res m.position m.length
              (expandReplacement m [36, 48]) = res := by
            rw [hm]
            exact replace_step_id res caps cc
          rw [hid] at h
          exact ih _ _ _ h
    · rw [if_neg hpos] at h
      exact (Option.some.inj h).symm

/-- C6: for every compilable pattern and every text, replacing every
match by `"$0"` (the whole matched text) is the identity: whenever the
`all = true` replace loop terminates, its output equals the input. -/
theorem replace_dollar_zero_identity :
    ∀ (p : List Nat) (prog : List Instruction) (nc : Nat) (t : List Nat)
      (G F : Nat) (out : List Nat),
      compilePattern p = .ok (prog, nc) →
      replaceAllRun G F (nc + 1) prog [36, 48] t = some out → out = t := by
  intro p prog nc t G F out hcomp h
  exact replaceGo_id F (nc + 1) prog G t 0 out h

theorem replace_dollar_zero_identity_witness :
    ∃ out, replaceAllRun 9 9 1 [.CHAR 97, .MATCH] [36, 48] [97, 98] = some out ∧
      out = [97, 98] :=
  ⟨[97, 98], rfl,
   replace_dollar_zero_identity [97] [.CHAR 97, .MATCH] 0 [97, 98] 9 9 [97, 98] rfl rfl⟩

/-- `markStep` preserves the length of the mark vector. -/
theorem markStep_length (caps : List (Option Nat)) (cc : Nat) (st : List Bool)
    (i : Nat) : (markStep caps cc st i).length = st.length := by
  unfold markStep
  rcases spanRaw caps i with _ | ⟨iS, iE⟩
  · rfl
  · dsimp only
    split
    · rw [List.length_set]
    · rfl

theorem foldl_markStep_length (caps : List (Option Nat)) (cc : Nat) :
    ∀ (l : List Nat) (st : List Bool),
      (l.foldl (markStep caps cc) st).length = st.length := by
  intro l
  induction l with
  | nil => intro st; rfl
  | cons x xs ih => intro st; rw [List.foldl_cons, ih, markStep_length]

/-- Marks are only ever added: a true bit survives a `markStep`. -/
theorem markStep_mono (caps : List (Option Nat)) (cc : Nat) (st : List Bool)
    (i k : Nat) (h : st.getD k false = true) :
    (markStep caps cc st i).getD k false = true := by
  unfold markStep
  rcases spanRaw caps i with _ | ⟨iS, iE⟩
  · exact h
  · dsimp only
    split
    · rw [List.getD_eq_getElem?_getD, List.getElem?_set]
      by_cases hik : i = k
      · subst hik
        have hlen : i < st.length := by
          rw [List.getD_eq_getElem?_getD] at h
          by_contra hge
          rw [List.getElem?_eq_none (by omega)] at h
          simp at h
        simp [hlen]
      · rw [if_neg hik, ← List.getD_eq_getElem?_getD]
        exact h
    · exact h

theorem foldl_markStep_mono (caps : List (Option Nat)) (cc : Nat) :
    ∀ (l : List Nat) (st : List Bool) (k : Nat),
      st.getD k false = true →
      (l.foldl (markStep caps cc) st).getD k false = true := by
  intro l
  induction l with
  | nil => intro st k h; exact h
  | cons x xs ih =>
    intro st k h
    rw [List.foldl_cons]
    exact ih _ k (markStep_mono caps cc st x k h)

/-- `markStep` at `i` leaves every other index unchanged. -/
theorem markStep_other (caps : List (Option Nat)) (cc : Nat) (st : List Bool)
    (i k : Nat) (hik : i ≠ k) :
    (markStep caps cc st i).getD k false = st.getD k false := by
  unfold markStep
  rcases spanRaw caps i with _ | ⟨iS, iE⟩
  · rfl
  · dsimp only
    split
    · rw [List.getD_eq_getElem?_getD, List.getElem?_set, if_neg hik,
        ← List.getD_eq_getElem?_getD]
    · rfl

theorem foldl_markStep_other (caps : List (Option Nat)) (cc : Nat) :
    ∀ (l : List Nat) (st : List Bool) (k : Nat),
      (∀ x ∈ l, x ≠ k) →
      (l.foldl (markStep caps cc) st).getD k false = st.getD k false := by
  intro l
  induction l with
  | nil => intro st k _; rfl
  | cons x xs ih =>
    intro st k hx
    rw [List.foldl_cons, ih _ k (fun y hy => hx y (List.mem_cons_of_mem x hy)),
      markStep_other caps cc st x k (hx x (List.mem_cons_self x xs))]

/-- The heart of the containment filter: if groups `i` and `j` both end
up unmarked and both have set spans, then `i`'s span is not strictly
inside `j`'s — otherwise `i`'s own marking step would have fired, since
`j` was unmarked at that moment (marks only grow). -/
theorem marksOf_spec (caps : List (Option Nat)) (cc : Nat) (i j : Nat)
    (hi : i ∈ List.range' 1 (cc - 1)) (hj : j ∈ List.range' 1 (cc - 1)) (hij : i ≠ j)
    (iS iE jS jE : Nat)
    (hsi : spanRaw caps i = some (iS, iE)) (hsj : spanRaw caps j = some (jS, jE))
    (hmi : (marksOf caps cc).getD i false = false)
    (hmj : (marksOf caps cc).getD j false = false) :
    strictlyInside iS iE jS jE = false := by
  obtain ⟨pre, post, hsplit⟩ := List.append_of_mem hi
  have hnodup : (pre ++ i :: post).Nodup := by
    rw [← hsplit]; exact List.nodup_range' 1 (cc - 1)
  have hinotpost : i ∉ post := (List.nodup_cons.mp hnodup.of_append_right).1
  have hicc : i < cc := by
    have := List.mem_range'_1.mp hi
    omega
  set stPre := pre.foldl (markStep caps cc) (List.replicate cc false) with hstPre
  have hfold : marksOf caps cc =
      post.foldl (markStep caps cc) (markStep caps cc stPre i) := by
    unfold marksOf
    rw [hsplit, List.foldl_append, List.foldl_cons]
  have hstI : (markStep caps cc stPre i).getD i false = false := by
    rw [hfold, foldl_markStep_other caps cc post _ i
      (fun x hx he => hinotpost (he ▸ hx))] at hmi
    exact hmi
  have hstPrelen : stPre.length = cc := by
    rw [hstPre, foldl_markStep_length, List.length_replicate]
  have hstPrej : stPre.getD j false = false := by
    by_contra hne
    have htrue : stPre.getD j false = true := by
      cases hb : stPre.getD j false
      · exact absurd hb hne
      · rfl
    have hfin : (marksOf caps cc).getD j false = true := by
      rw [hfold]
      exact foldl_markStep_mono caps cc post _ j
        (markStep_mono caps cc stPre i j htrue)
    rw [hmj] at hfin
    cases hfin
  unfold markStep at hstI
  rw [hsi] at hstI
  dsimp only at hstI
  split at hstI
  next hany =>
    rw [List.getD_eq_getElem?_getD, List.getElem?_set, if_pos rfl] at hstI
    rw [if_pos (by omega : i < stPre.length)] at hstI
    cases hstI
  next hany =>
    have hfalse := Bool.eq_false_iff.mpr hany
    have hPj := List.any_eq_false.mp hfalse j hj
    rw [Bool.not_eq_true] at hPj
    simp only [hsj] at hPj
    rw [decide_eq_false hij, hstPrej] at hPj
    simpa using hPj

/-- The two shapes a reported entry can take: the sentinel, or a real
span with `start < end` whose raw span is set. -/
theorem capEntry_shape (t : List Nat) (caps : List (Option Nat)) (i : Nat) :
    capEntry t caps i = ⟨none, none, []⟩ ∨
    (∃ s e, capEntry t caps i = ⟨some s, some e, slice t s (e - s)⟩ ∧ s < e ∧
      spanRaw caps i = some (s, e)) := by
  unfold capEntry spanRaw
  rcases capVal caps (2 * i) with _ | s
  · left; rfl
  · rcases capVal caps (2 * i + 1) with _ | e
    · left; rfl
    · by_cases hse : s < e
      · right
        refine ⟨s, e, ?_, hse, rfl⟩
        dsimp only
        rw [if_pos hse]
      · left
        dsimp only
        rw [if_neg hse]

/-- C7: among the entries reported in `captures`, no entry's span is
strictly contained within another reported entry's span — for every
capture vector, capture count and text (sentinel entries compare under
the `npos`-as-maximum reading and never participate in a strict
containment). -/
theorem captures_no_strict_containment :
    ∀ (t : List Nat) (caps : List (Option Nat)) (cc : Nat),
      List.Pairwise (fun a b => scEntry a b = false ∧ scEntry b a = false)
        (buildCaptures t caps cc) := by
  intro t caps cc
  unfold buildCaptures
  rw [List.pairwise_filterMap]
  refine List.Pairwise.imp_of_mem ?_ (List.pairwise_lt_range' 1 (cc - 1))
  intro i j hi hj hltij x hx y hy
  by_cases hmi : (marksOf caps cc).getD i false = true
  · rw [if_pos hmi] at hx
    cases hx
  · rw [if_neg hmi] at hx
    by_cases hmj : (marksOf caps cc).getD j false = true
    · rw [if_pos hmj] at hy
      cases hy
    · rw [if_neg hmj] at hy
      have hmi' : (marksOf caps cc).getD i false = false := Bool.eq_false_iff.mpr hmi
      have hmj' : (marksOf caps cc).getD j false = false := Bool.eq_false_iff.mpr hmj
      have hxe : capEntry t caps i = x := by simpa using hx
      have hye : capEntry t caps j = y := by simpa using hy
      subst hxe
      subst hye
      have hij : i ≠ j := Nat.ne_of_lt hltij
      rcases capEntry_shape t caps i with hshape_i | ⟨si, ei, hei, hsei, hrawi⟩ <;>
        rcases capEntry_shape t caps j with hshape_j | ⟨sj, ej, hej, hsej, hrawj⟩
      · rw [hshape_i, hshape_j]
        exact ⟨rfl, rfl⟩
      · rw [hshape_i, hej]
        exact ⟨rfl, rfl⟩
      · rw [hei, hshape_j]
        exact ⟨rfl, rfl⟩
      · rw [hei, hej]
        constructor
        · exact marksOf_spec caps cc i j hi hj hij si ei sj ej hrawi hrawj hmi' hmj'
        · exact marksOf_spec caps cc j i hj hi (Ne.symm hij) sj ej si ei hrawj hrawi
            hmj' hmi'

/-- One round of the `(a*)*` loop on `"b"`: six VM steps bring the
machine from the steady state back to itself, with one more abandoned
outer-`SPLIT` frame on the backtrack stack. -/
theorem nestedStar_cycle (n : Nat) (s : List Frame) :
    vmRun nestedStarProg [98] (n + 6) ⟨0, 0, nestedStarCaps, s⟩ =
      vmRun nestedStarProg [98] n ⟨0, 0, nestedStarCaps, ⟨7, 0, nestedStarCaps⟩ :: s⟩ :=
  rfl

/-- From the steady state, no amount of fuel makes the `(a*)*` machine
terminate on `"b"`: every six steps it returns to the same pc, text
position and captures with a strictly larger stack. -/
theorem nestedStar_no_fuel : ∀ (n : Nat) (s : List Frame),
    vmRun nestedStarProg [98] n ⟨0, 0, nestedStarCaps, s⟩ = none := by
  intro n
  induction n using Nat.strong_induction_on with
  | _ n ih =>
    intro s
    rcases Nat.lt_or_ge n 6 with h6 | h6
    · interval_cases n <;> rfl
    · obtain ⟨m, rfl⟩ : ∃ m, n = m + 6 := ⟨n - 6, by omega⟩
      rw [nestedStar_cycle]
      exact ih m (by omega) _

/-- `executeAt` on the compiled `(a*)*` never terminates on `"b"`:
after the first round the machine is in the steady state. -/
theorem nestedStar_executeAt_diverges :
    ∀ fuel : Nat, executeAt fuel 2 nestedStarProg [98] 0 = none := by
  intro fuel
  unfold executeAt
  have hrun : ∀ n : Nat, vmRun nestedStarProg [98] n ⟨0, 0, initCaps 2 0, []⟩ = none := by
    intro n
    rcases Nat.lt_or_ge n 6 with h6 | h6
    · interval_cases n <;> rfl
    · obtain ⟨m, rfl⟩ : ∃ m, n = m + 6 := ⟨n - 6, by omega⟩
      have hfirst : vmRun nestedStarProg [98] (m + 6) ⟨0, 0, initCaps 2 0, []⟩ =
          vmRun nestedStarProg [98] m ⟨0, 0, nestedStarCaps, [⟨7, 0, initCaps 2 0⟩]⟩ :=
        rfl
      rw [hfirst]
      exact nestedStar_no_fuel m _
  rw [hrun fuel]

/-- C5: `searchAll` does NOT terminate on every compiled pattern and
text.  The pattern `(a*)*` compiles fine, but on the text `"b"` its
very first `executeAt` call loops forever — the nullable starred group
matches the empty string, the outer star jumps back to its `SPLIT`,
and the backtrack stack grows without bound — so `searchAll` never
returns: for every fuel bound the run is still unfinished. -/
theorem searchAll_diverges_on_nested_star :
    compilePattern [40, 97, 42, 41, 42] = .ok (nestedStarProg, 1) ∧
    (∀ F : Nat, executeAt F 2 nestedStarProg [98] 0 = none) ∧
    (∀ G F : Nat, searchAllRun G F 2 nestedStarProg [98] = none) := by
  refine ⟨rfl, nestedStar_executeAt_diverges, ?_⟩
  intro G F
  unfold searchAllRun
  cases G with
  | zero => rfl
  | succ G =>
    rw [searchAllGo]
    rw [if_pos (by decide : (0 : Nat) ≤ [98].length)]
    rw [nestedStar_executeAt_diverges F]

end Amaranth
